import Mathlib

/-!
Shallow embedding of the stock-screener filtering/ranking engine of
`backend/routes/db_read_routes.py` (endpoint `get_screener_symbols`),
together with its helpers `_parse_float`, `get_mongo_operator` and
`add_bf_with_operator`.

Modelling conventions:
* Python floats are modelled as rationals (ℚ); every operation the engine
  performs on them (comparison, division by 100, negation) is exact.
* MongoDB documents are modelled as Lean structures; a nested nullable
  numeric field is `Option (Option ℚ)` on lookup (absent vs null), and a
  query condition dictionary is a list of (field, mongo-operator,
  threshold) conjuncts.  In the source each metric field is touched by
  exactly one `add_bf_*` call, so the dict-of-dicts `bf_query` collapses
  to this conjunct list; the constant `data.metric.` path prepended to the
  metric keys is kept implicit (query fields are the metric keys themselves).
* Python sets are `Finset String`; every downstream use (intersection,
  union, membership, `sorted`) is order-insensitive, so set iteration
  order does not matter.
* Python `sorted` is a stable sort on totally preordered keys; every key
  tuple used here ends in the ticker symbol, so on the duplicate-free
  lists being sorted the key order is a total order and any correct sort
  produces the same list; we use `List.mergeSort`.
* `str.strip` is `String.trim`, `str.upper` is `String.toUpper`
  (ASCII, which covers ticker symbols and company names used here), and
  Python's substring test `a in b` is `strContains` below.
-/

namespace Screener

/-- Lexicographic comparison of character lists by code point, the order
Python uses to compare strings. -/
def charListLe : List Char → List Char → Bool
  | [], _ => true
  | _ :: _, [] => false
  | a :: as, b :: bs => if a = b then charListLe as bs else decide (a < b)

/-- Python string comparison `a <= b` (code-point lexicographic). -/
def strLe (a b : String) : Bool :=
  charListLe a.data b.data

/-- The propositional form of `strLe`, used as the sorting relation for
Python's `sorted` on strings. -/
def alphaLe (a b : String) : Prop :=
  strLe a b = true

instance : DecidableRel alphaLe := fun a b =>
  inferInstanceAs (Decidable (strLe a b = true))

theorem charListLe_refl (a : List Char) : charListLe a a = true := by
  induction a with
  | nil => rfl
  | cons x xs ih => simp [charListLe, ih]

theorem charListLe_trans : ∀ {a b c : List Char},
    charListLe a b = true → charListLe b c = true → charListLe a c = true
  | [], _, _, _, _ => rfl
  | _ :: _, [], _, h1, _ => by simp [charListLe] at h1
  | _ :: _, _ :: _, [], _, h2 => by simp [charListLe] at h2
  | x :: xs, y :: ys, z :: zs, h1, h2 => by
    simp only [charListLe] at h1 h2 ⊢
    by_cases hxy : x = y
    · subst hxy
      by_cases hyz : x = z
      · subst hyz
        simpa using charListLe_trans (by simpa using h1) (by simpa using h2)
      · simpa [hyz] using h2
    · by_cases hyz : y = z
      · subst hyz
        simpa [hxy] using h1
      · rw [if_neg hxy] at h1
        rw [if_neg hyz] at h2
        have hlt : x < z := lt_trans (of_decide_eq_true h1) (of_decide_eq_true h2)
        rw [if_neg (ne_of_lt hlt)]
        exact decide_eq_true hlt

theorem charListLe_total : ∀ a b : List Char,
    charListLe a b = true ∨ charListLe b a = true
  | [], _ => Or.inl rfl
  | _ :: _, [] => Or.inr rfl
  | x :: xs, y :: ys => by
    simp only [charListLe]
    by_cases hxy : x = y
    · subst hxy
      simpa using charListLe_total xs ys
    · rcases lt_or_gt_of_ne hxy with h | h
      · exact Or.inl (by simp [hxy, h])
      · exact Or.inr (by simp [Ne.symm hxy, h])

theorem charListLe_antisymm : ∀ {a b : List Char},
    charListLe a b = true → charListLe b a = true → a = b
  | [], [], _, _ => rfl
  | [], _ :: _, _, h2 => by simp [charListLe] at h2
  | _ :: _, [], h1, _ => by simp [charListLe] at h1
  | x :: xs, y :: ys, h1, h2 => by
    simp only [charListLe] at h1 h2
    by_cases hxy : x = y
    · subst hxy
      simp only [if_pos rfl] at h1 h2
      exact congrArg (x :: ·) (charListLe_antisymm h1 h2)
    · rw [if_neg hxy] at h1
      rw [if_neg (Ne.symm hxy)] at h2
      exact absurd (of_decide_eq_true h2) (lt_asymm (of_decide_eq_true h1))

instance : IsTrans String alphaLe :=
  ⟨fun _ _ _ h1 h2 => charListLe_trans h1 h2⟩

instance : IsTotal String alphaLe :=
  ⟨fun a b => charListLe_total a.data b.data⟩

instance : IsAntisymm String alphaLe := by
  refine ⟨fun a b h1 h2 => ?_⟩
  cases a
  cases b
  exact congrArg String.mk (charListLe_antisymm h1 h2)

instance : IsRefl String alphaLe :=
  ⟨fun a => charListLe_refl a.data⟩

/-- Python `sorted` on a set of strings: the alphabetically ascending
listing of a `Finset String` (insertion sort of any underlying listing;
well defined because `alphaLe` is total, transitive and antisymmetric). -/
def alphaList (S : Finset String) : List String :=
  Quot.liftOn S.val (fun l => l.insertionSort alphaLe)
    (fun _ _ h => List.eq_of_perm_of_sorted
      ((List.perm_insertionSort alphaLe _).trans
        (h.trans (List.perm_insertionSort alphaLe _).symm))
      (List.sorted_insertionSort alphaLe _)
      (List.sorted_insertionSort alphaLe _))

theorem mem_alphaList {S : Finset String} {t : String} :
    t ∈ alphaList S ↔ t ∈ S := by
  rcases S with ⟨m, nd⟩
  induction m using Quot.inductionOn with
  | _ l =>
    show t ∈ l.insertionSort alphaLe ↔ _
    rw [List.mem_insertionSort]
    exact (Multiset.mem_coe).symm

theorem sorted_alphaList (S : Finset String) : (alphaList S).Sorted alphaLe := by
  rcases S with ⟨m, nd⟩
  induction m using Quot.inductionOn with
  | _ l => exact List.sorted_insertionSort alphaLe l

theorem nodup_alphaList (S : Finset String) : (alphaList S).Nodup := by
  rcases S with ⟨m, nd⟩
  induction m using Quot.inductionOn with
  | _ l => exact ((List.perm_insertionSort alphaLe l).nodup_iff).mpr nd

/-- A raw JSON filter value as the route receives it: a string or a number
(Python int/float, modelled as ℚ). -/
inductive FilterVal where
  | str (s : String)
  | num (q : ℚ)
deriving DecidableEq

/-- The request's `filters` mapping: a string-keyed dictionary, modelled as
an association list (Python dicts have unique keys; `fget` takes the first
binding). -/
abbrev Filters := List (String × FilterVal)

/-- Python `filters.get(k)`. -/
def fget (f : Filters) (k : String) : Option FilterVal :=
  (f.find? (fun p => p.1 == k)).map (·.2)

/-- Python `filters.get(k, d)`. -/
def fgetD (f : Filters) (k : String) (d : FilterVal) : FilterVal :=
  (fget f k).getD d

/-- Python `str.strip()` on the character list: drop whitespace from both
ends. -/
def stripChars (l : List Char) : List Char :=
  ((l.dropWhile Char.isWhitespace).reverse.dropWhile Char.isWhitespace).reverse

/-- Python `str.strip()`. -/
def strTrim (s : String) : String :=
  ⟨stripChars s.data⟩

/-- Python `str.upper()` (ASCII case mapping, which covers the ticker
symbols, company names and search terms involved). -/
def strUpper (s : String) : String :=
  ⟨s.data.map Char.toUpper⟩

/-- Characters kept by `re.sub(r"[^0-9.+-]", "", s)` in `_parse_float`. -/
def isNumChar (c : Char) : Bool :=
  c.isDigit || c == '.' || c == '+' || c == '-'

/-- Value of a digit string read left to right (empty list reads as 0). -/
def digitsVal (l : List Char) : ℚ :=
  l.foldl (fun acc c => acc * 10 + ((c.toNat - 48 : ℕ) : ℚ)) 0

/-- Models Python `float()` on an unsigned token drawn from the characters
that survive cleaning (digits, `.`, `+`, `-`): accepted iff every character
is a digit or a dot, there is at most one dot and at least one digit. -/
def pyFloatCore (l : List Char) : Option ℚ :=
  if l.all (fun c => c.isDigit || c == '.')
      && l.countP (fun c => c == '.') ≤ 1
      && l.any Char.isDigit then
    let intPart := l.takeWhile (fun c => c != '.')
    let fracPart := (l.dropWhile (fun c => c != '.')).drop 1
    some (digitsVal intPart + digitsVal fracPart / 10 ^ fracPart.length)
  else
    none

/-- Models Python `float()` on a cleaned string: an optional single leading
sign followed by an unsigned decimal token. -/
def pyFloat : List Char → Option ℚ
  | [] => pyFloatCore []
  | c :: rest =>
    if c = '+' then pyFloatCore rest
    else if c = '-' then (pyFloatCore rest).map (fun q => -q)
    else pyFloatCore (c :: rest)

/-- Embeds `_parse_float`: `None` stays `None`; numbers pass through;
strings are stripped, cleaned to `[0-9.+-]` and parsed, with every failure
(empty after strip, empty after clean, malformed token) yielding `None`.
The Lean function is total, mirroring the blanket `try/except` that makes
the Python function never raise. -/
def parse_float : Option FilterVal → Option ℚ
  | none => none
  | some (.num q) => some q
  | some (.str s) =>
    let t := strTrim s
    if t == "" then none
    else
      let cleaned := t.data.filter isNumChar
      if cleaned.isEmpty then none else pyFloat cleaned

/-- Specification-side grammar of the tokens Python `float()` accepts
among cleaned strings: an optional single leading sign, then a nonempty
body whose characters are digits or dots, with at most one dot and at
least one digit. -/
def isPyFloatToken : List Char → Bool
  | [] => false
  | c :: rest =>
    let body := if c == '+' || c == '-' then rest else c :: rest
    !body.isEmpty && body.all (fun x => x.isDigit || x == '.')
      && decide (body.countP (fun x => x == '.') ≤ 1) && body.any Char.isDigit

/-- Embeds `get_mongo_operator`: the six recognized operator strings map to
their Mongo operators; anything else (including non-string values reaching
it through `filters.get`) falls back to `"$gte"`. -/
def get_mongo_operator (op : FilterVal) : String :=
  match op with
  | .str s =>
    if s = "lte" then "$lte"
    else if s = "lt" then "$lt"
    else if s = "gte" then "$gte"
    else if s = "gt" then "$gt"
    else if s = "eq" then "$eq"
    else if s = "ne" then "$ne"
    else "$gte"
  | _ => "$gte"

/-- Numeric comparison for one Mongo operator (only the six operators
produced by `get_mongo_operator` occur). -/
def mongoCmp (op : String) (x t : ℚ) : Bool :=
  if op = "$lte" then decide (x ≤ t)
  else if op = "$lt" then decide (x < t)
  else if op = "$gte" then decide (t ≤ x)
  else if op = "$gt" then decide (t < x)
  else if op = "$eq" then decide (x = t)
  else if op = "$ne" then decide (x ≠ t)
  else false

/-- Mongo match of one operator condition against an optionally-present,
nullable numeric field: the range and equality operators require a present
non-null value; `$ne` with a numeric threshold also matches a document in
which the field is absent or null. -/
def fieldMatch (v : Option (Option ℚ)) (op : String) (t : ℚ) : Bool :=
  match v with
  | some (some x) => mongoCmp op x t
  | _ => op == "$ne"

/-- One call site of `add_bf_with_operator` in the source: the metric key
inside `data.metric`, the filter key, the operator key, the percent flag
and the default operator string. -/
structure BfCall where
  metricKey : String
  filterKey : String
  operatorKey : String
  isPercent : Bool
  defaultOperator : String

/-- A compiled BasicFinancials query: conjunction of (metric field, mongo
operator, threshold) conditions. -/
abbrev BfQuery := List (String × String × ℚ)

/-- Embeds `add_bf_with_operator`: parse the filter value (no value, no
condition), scale percent metrics by 1/100, resolve the operator from the
`<metric>Operator` key with the metric's default as the `dict.get`
fallback, and add the condition for this metric. -/
def add_bf_with_operator (filters : Filters) (q : BfQuery) (c : BfCall) : BfQuery :=
  match parse_float (fget filters c.filterKey) with
  | none => q
  | some v =>
    let threshold := if c.isPercent then v / 100 else v
    let op := fgetD filters c.operatorKey (.str c.defaultOperator)
    q ++ [(c.metricKey, get_mongo_operator op, threshold)]

/-- The ordered sequence of `add_bf_with_operator` call sites in
`get_screener_symbols`, with the exact arguments of the source. -/
def bfCallTable : List BfCall :=
  [⟨"peTTM", "peMax", "peOperator", false, "lte"⟩,
   ⟨"forwardPE", "forwardPeMax", "forwardPeOperator", false, "lte"⟩,
   ⟨"pegTTM", "pegMax", "pegOperator", false, "lte"⟩,
   ⟨"pb", "pbMax", "pbOperator", false, "lte"⟩,
   ⟨"psTTM", "psMax", "psOperator", false, "lte"⟩,
   ⟨"evEbitdaTTM", "evEbitdaMax", "evEbitdaOperator", false, "lte"⟩,
   ⟨"netProfitMarginTTM", "netMarginMin", "netMarginOperator", true, "gte"⟩,
   ⟨"operatingMarginTTM", "operMarginMin", "operMarginOperator", true, "gte"⟩,
   ⟨"grossMarginTTM", "grossMarginMin", "grossMarginOperator", true, "gte"⟩,
   ⟨"roeTTM", "roeMin", "roeOperator", true, "gte"⟩,
   ⟨"roaTTM", "roaMin", "roaOperator", true, "gte"⟩,
   ⟨"roicTTM", "roiMin", "roiOperator", true, "gte"⟩,
   ⟨"revenueGrowthTTMYoy", "revGrowthYoyMin", "revGrowthYoyOperator", true, "gte"⟩,
   ⟨"revenueGrowth3Y", "revGrowth3YMin", "revGrowth3YOperator", true, "gte"⟩,
   ⟨"revenueGrowth5Y", "revGrowth5YMin", "revGrowth5YOperator", true, "gte"⟩,
   ⟨"epsGrowthTTMYoy", "epsGrowthYoyMin", "epsGrowthYoyOperator", true, "gte"⟩,
   ⟨"epsGrowth3Y", "epsGrowth3YMin", "epsGrowth3YOperator", true, "gte"⟩,
   ⟨"epsGrowth5Y", "epsGrowth5YMin", "epsGrowth5YOperator", true, "gte"⟩,
   ⟨"focfCagr5Y", "cashFlowGrowthMin", "cashFlowGrowthOperator", true, "gte"⟩,
   ⟨"ebitdaCagr5Y", "ebitdaGrowthMin", "ebitdaGrowthOperator", true, "gte"⟩,
   ⟨"freeCashFlowPerShareTTM", "fcfPerShareMin", "fcfPerShareOperator", false, "gte"⟩,
   ⟨"currentEv/freeCashFlowTTM", "evFcfMax", "evFcfOperator", false, "lte"⟩,
   ⟨"totalDebtToEquity", "deRatioMax", "deRatioOperator", false, "lte"⟩,
   ⟨"netInterestCoverageAnnual", "interestCoverageMin", "interestCoverageOperator", false, "gte"⟩,
   ⟨"currentRatioAnnual", "currentRatioMin", "currentRatioOperator", false, "gte"⟩,
   ⟨"quickRatioAnnual", "quickRatioMin", "quickRatioOperator", false, "gte"⟩,
   ⟨"yearToDatePriceReturnDaily", "ytdReturnMin", "ytdReturnOperator", true, "gte"⟩,
   ⟨"5DayPriceReturnDaily", "return5DMin", "return5DOperator", true, "gte"⟩,
   ⟨"monthToDatePriceReturnDaily", "return1MMin", "return1MOperator", true, "gte"⟩,
   ⟨"13WeekPriceReturnDaily", "return3MMin", "return3MOperator", true, "gte"⟩,
   ⟨"priceRelativeToS&P50052Week", "relSp5001YMin", "relSp5001YOperator", true, "gte"⟩]

/-- The `bf_query` built by the sequence of `add_bf_with_operator` calls. -/
def build_bf_query (filters : Filters) : BfQuery :=
  bfCallTable.foldl (add_bf_with_operator filters) []

/-- A `finnhub-basic-financials` document: ticker plus the nested
`data.metric` mapping from metric name to nullable number. -/
structure BFDoc where
  ticker : String
  metrics : List (String × Option ℚ)

/-- A `finnhub-profile2` document: ticker plus the `data` fields the
screener reads (`gsector`, `gind`, `finnhubIndustry`, `name`), each of
which may be absent. -/
structure CPDoc where
  ticker : String
  gsector : Option String
  gind : Option String
  finnhubIndustry : Option String
  name : Option String

/-- A `finnhub-latest-candles` document; per the `LatestCandle` model class
`close` and `volume` are required (non-null) floats. -/
structure LCDoc where
  ticker : String
  resolution : String
  close : ℚ
  volume : ℚ

/-- The three MongoDB collections the screener reads. -/
structure DB where
  bf : List BFDoc
  cp : List CPDoc
  lc : List LCDoc

/-- Python `metric_data.get(k)` on a `data.metric` dictionary: `none` when
the key is absent, `some none` when stored null. -/
def metricGet (m : List (String × Option ℚ)) (k : String) : Option (Option ℚ) :=
  (m.find? (fun p => p.1 == k)).map (·.2)

/-- Whether a BasicFinancials document matches every condition of a
compiled query. -/
def bfDocMatches (q : BfQuery) (d : BFDoc) : Bool :=
  q.all (fun c => fieldMatch (metricGet d.metrics c.1) c.2.1 c.2.2)

/-- Tickers of the BasicFinancials documents matching a query
(`BasicFinancials.find(bf_query)` followed by the ticker-set
comprehension). -/
def bfFind (db : DB) (q : BfQuery) : Finset String :=
  ((db.bf.filter (bfDocMatches q)).map (·.ticker)).toFinset

/-- The latest-candle query of step 2: resolution `"D"` plus optional
(operator, threshold) conditions on `close` and `volume`. -/
structure LcQuery where
  closeCond : Option (String × ℚ)
  volumeCond : Option (String × ℚ)

/-- Whether a latest-candle document matches the step-2 query. -/
def lcDocMatches (q : LcQuery) (d : LCDoc) : Bool :=
  d.resolution == "D"
    && (match q.closeCond with
        | none => true
        | some c => mongoCmp c.1 d.close c.2)
    && (match q.volumeCond with
        | none => true
        | some c => mongoCmp c.1 d.volume c.2)

/-- Tickers of the latest-candle documents matching the step-2 query. -/
def lcFind (db : DB) (q : LcQuery) : Finset String :=
  ((db.lc.filter (lcDocMatches q)).map (·.ticker)).toFinset

/-- Python truthiness of a filter value (empty string and 0 are falsy). -/
def truthy : FilterVal → Bool
  | .str s => s != ""
  | .num q => decide (q ≠ 0)

/-- Mongo equality of a raw filter value against an optional string field:
a string matches on equality; a number never equals a string field, and an
absent field matches nothing. -/
def catMatch (v : FilterVal) (field : Option String) : Bool :=
  match v, field with
  | .str s, some s' => s == s'
  | _, _ => false

/-- Whether a profile document matches the step-3 category query: the
sector OR-clause (`data.gsector` / `data.finnhubIndustry`), the industry
OR-clause (`data.gind` / `data.finnhubIndustry`) and the optional ticker
membership restriction, conjoined. -/
def cpDocMatchesCat (sec ind : Option FilterVal) (restrict : Option (Finset String))
    (d : CPDoc) : Bool :=
  (match sec with
   | none => true
   | some v => catMatch v d.gsector || catMatch v d.finnhubIndustry)
    && (match ind with
        | none => true
        | some v => catMatch v d.gind || catMatch v d.finnhubIndustry)
    && (match restrict with
        | none => true
        | some S => decide (d.ticker ∈ S))

/-- Tickers of the profile documents matching the step-3 category query. -/
def cpFindCat (db : DB) (sec ind : Option FilterVal) (restrict : Option (Finset String)) :
    Finset String :=
  ((db.cp.filter (cpDocMatchesCat sec ind restrict)).map (·.ticker)).toFinset

/-- Tickers of all profile documents (`CompanyProfile.find_all()`). -/
def cpAllTickers (db : DB) : Finset String :=
  (db.cp.map (·.ticker)).toFinset

/-- The raw `sector` filter value. -/
def sectorVal (filters : Filters) : Option FilterVal :=
  fget filters "sector"

/-- The raw `industry` filter value. -/
def industryVal (filters : Filters) : Option FilterVal :=
  fget filters "industry"

/-- Python `sector and sector != "Any"` as a Bool. -/
def hasSectorFilter (filters : Filters) : Bool :=
  match sectorVal filters with
  | none => false
  | some v => truthy v && decide (v ≠ FilterVal.str "Any")

/-- Python `industry and industry != "Any"` as a Bool. -/
def hasIndustryFilter (filters : Filters) : Bool :=
  match industryVal filters with
  | none => false
  | some v => truthy v && decide (v ≠ FilterVal.str "Any")

/-- Whether step 2 runs: a parseable `latestCloseMin` or
`latestVolumeMin`. -/
def lcActive (filters : Filters) : Bool :=
  (parse_float (fget filters "latestCloseMin")).isSome
    || (parse_float (fget filters "latestVolumeMin")).isSome

/-- The step-2 query built from the filters. -/
def lcQueryOf (filters : Filters) : LcQuery :=
  ⟨(parse_float (fget filters "latestCloseMin")).map
      (fun v => (get_mongo_operator (fgetD filters "latestCloseOperator" (.str "lte")), v)),
   (parse_float (fget filters "latestVolumeMin")).map
      (fun v => (get_mongo_operator (fgetD filters "latestVolumeOperator" (.str "lte")), v))⟩

/-- Candidate set after step 1 (`None` means unconstrained so far). -/
def tsAfterBf (db : DB) (filters : Filters) : Option (Finset String) :=
  if (build_bf_query filters).isEmpty then none
  else some (bfFind db (build_bf_query filters))

/-- Candidate set after step 2: seed with the latest-candle result or
intersect into the running set. -/
def tsAfterLc (db : DB) (filters : Filters) : Option (Finset String) :=
  if lcActive filters then
    match tsAfterBf db filters with
    | none => some (lcFind db (lcQueryOf filters))
    | some s => some (s ∩ lcFind db (lcQueryOf filters))
  else tsAfterBf db filters

/-- Candidate set after step 3: the category query (restricted to the
running set when one exists) seeds or intersects the running set. -/
def tsAfterCp (db : DB) (filters : Filters) : Option (Finset String) :=
  if hasSectorFilter filters || hasIndustryFilter filters then
    match tsAfterLc db filters with
    | none =>
      some (cpFindCat db
        (if hasSectorFilter filters then sectorVal filters else none)
        (if hasIndustryFilter filters then industryVal filters else none)
        (tsAfterLc db filters))
    | some s =>
      some (s ∩ cpFindCat db
        (if hasSectorFilter filters then sectorVal filters else none)
        (if hasIndustryFilter filters then industryVal filters else none)
        (tsAfterLc db filters))
  else tsAfterLc db filters

/-- The candidate set entering the search overlay: step 4 defaults an
unconstrained run to all profile tickers. -/
def candidateSet (db : DB) (filters : Filters) : Finset String :=
  (tsAfterCp db filters).getD (cpAllTickers db)

/-- Whether a list starts with the given pattern. -/
def listStartsWith : List Char → List Char → Bool
  | _, [] => true
  | [], _ :: _ => false
  | a :: as, b :: bs => a == b && listStartsWith as bs

/-- Whether the pattern occurs as a contiguous run inside the list
(Python's `needle in hay` on strings). -/
def listContainsSub : List Char → List Char → Bool
  | [], p => listStartsWith [] p
  | l@(_ :: rest), p => listStartsWith l p || listContainsSub rest p

/-- Python `needle in hay` on strings. -/
def strContains (hay needle : String) : Bool :=
  listContainsSub hay.data needle.data

/-- Step 5, the search overlay: for a truthy, non-whitespace search term,
keep the candidates whose symbol contains the stripped uppercased term,
union the candidates having a profile whose `name` (null read as the empty
string) contains it; otherwise leave the candidate set unchanged. -/
def searchStage (db : DB) (S : Finset String) (search : Option String) : Finset String :=
  match search with
  | none => S
  | some q =>
    if q != "" && strTrim q != "" then
      let up := strUpper (strTrim q)
      let tickerMatches := S.filter (fun t => strContains (strUpper t) up)
      let nameMatches : Finset String :=
        if S.Nonempty then
          ((db.cp.filter (fun d =>
              decide (d.ticker ∈ S) && strContains (strUpper (d.name.getD "")) up)).map
            (·.ticker)).toFinset
        else ∅
      tickerMatches ∪ nameMatches
    else S

/-- The ordered `sort_metric_mapping` table: sort-direction filter key to
metric key, in the source's declaration order. -/
def sort_metric_mapping : List (String × String) :=
  [("peSortDirection", "peTTM"),
   ("forwardPeSortDirection", "forwardPE"),
   ("pegSortDirection", "pegTTM"),
   ("pbSortDirection", "pb"),
   ("psSortDirection", "psTTM"),
   ("evEbitdaSortDirection", "evEbitdaTTM"),
   ("netMarginSortDirection", "netProfitMarginTTM"),
   ("operMarginSortDirection", "operatingMarginTTM"),
   ("grossMarginSortDirection", "grossMarginTTM"),
   ("roeSortDirection", "roeTTM"),
   ("roaSortDirection", "roaTTM"),
   ("roiSortDirection", "roicTTM"),
   ("revGrowthYoySortDirection", "revenueGrowthTTMYoy"),
   ("revGrowth3YSortDirection", "revenueGrowth3Y"),
   ("revGrowth5YSortDirection", "revenueGrowth5Y"),
   ("epsGrowthYoySortDirection", "epsGrowthTTMYoy"),
   ("epsGrowth3YSortDirection", "epsGrowth3Y"),
   ("epsGrowth5YSortDirection", "epsGrowth5Y"),
   ("cashFlowGrowthSortDirection", "focfCagr5Y"),
   ("ebitdaGrowthSortDirection", "ebitdaCagr5Y"),
   ("deRatioSortDirection", "totalDebtToEquity"),
   ("interestCoverageSortDirection", "netInterestCoverageAnnual"),
   ("currentRatioSortDirection", "currentRatioAnnual"),
   ("quickRatioSortDirection", "quickRatioAnnual"),
   ("fcfPerShareSortDirection", "freeCashFlowPerShareTTM"),
   ("evFcfSortDirection", "currentEv/freeCashFlowTTM"),
   ("ytdReturnSortDirection", "yearToDatePriceReturnDaily"),
   ("return5DSortDirection", "5DayPriceReturnDaily"),
   ("return1MSortDirection", "monthToDatePriceReturnDaily"),
   ("return3MSortDirection", "13WeekPriceReturnDaily"),
   ("relSp5001YSortDirection", "priceRelativeToS&P50052Week"),
   ("latestCloseSortDirection", "close"),
   ("latestVolumeSortDirection", "volume")]

/-- The first-match-wins directive scan: the first table entry whose filter
value is exactly the string `"Asc"` or `"Desc"` yields (direction, metric
key); `None` when no entry matches. -/
def sortDirectiveScan (filters : Filters) : Option (String × String) :=
  sort_metric_mapping.findSome? (fun p =>
    match fget filters p.1 with
    | some (.str "Asc") => some ("Asc", p.2)
    | some (.str "Desc") => some ("Desc", p.2)
    | _ => none)

/-- The sort key tuple `(missingFlag, signedValue, ticker)`. -/
abbrev SortKey := ℕ × ℚ × String

/-- Lexicographic comparison of sort keys, mirroring Python tuple
comparison for `(int, float, str)`. -/
def keyLE (a b : SortKey) : Bool :=
  decide (a.1 < b.1)
    || (decide (a.1 = b.1)
        && (decide (a.2.1 < b.2.1)
            || (decide (a.2.1 = b.2.1) && strLe a.2.2 b.2.2)))

/-- Python dict entry assignment `m[k] = v`: overwrite an existing binding
in place, otherwise append. -/
def dictInsert (m : List (String × Option ℚ)) (k : String) (v : Option ℚ) :
    List (String × Option ℚ) :=
  if m.any (fun p => p.1 == k) then
    m.map (fun p => if p.1 == k then (k, v) else p)
  else m ++ [(k, v)]

/-- Python `ticker_metric_map.get(t)`: `none` when the ticker is absent
from the map or bound to null. -/
def mapGet (m : List (String × Option ℚ)) (t : String) : Option ℚ :=
  ((m.find? (fun p => p.1 == t)).map (·.2)).join

/-- Key set of a ticker-to-metric map (`set(ticker_metric_map.keys())`). -/
def mapKeys (m : List (String × Option ℚ)) : Finset String :=
  (m.map (·.1)).toFinset

/-- The `ticker_metric_map` of the BasicFinancials sort branch: one entry
per fetched document (ticker in the candidate set), bound to the metric
value or null. -/
def bfMetricMap (db : DB) (S : Finset String) (metricKey : String) :
    List (String × Option ℚ) :=
  (db.bf.filter (fun d => decide (d.ticker ∈ S))).foldl
    (fun m d => dictInsert m d.ticker (metricGet d.metrics metricKey).join) []

/-- The `ticker_metric_map` of the latest-candle sort branch: one entry per
fetched daily candle, bound to its `close` or `volume`. -/
def lcMetricMap (db : DB) (S : Finset String) (metricKey : String) :
    List (String × Option ℚ) :=
  (db.lc.filter (fun d => decide (d.ticker ∈ S) && d.resolution == "D")).foldl
    (fun m d =>
      dictInsert m d.ticker (some (if metricKey == "close" then d.close else d.volume))) []

/-- Embeds the inner `sort_key` closures (both branches define the same
function over their map): missing or null values get numeric value 0,
direction is applied by negating the value, and the leading flag is 1
exactly for a missing value under `"Asc"` (the source's
`1 if is_missing and sort_direction == "Asc" else 0 if is_missing else 0`). -/
def sort_key (m : List (String × Option ℚ)) (dir : String) (t : String) : SortKey :=
  let value := mapGet m t
  let isMissing := value.isNone
  let numericValue : ℚ := value.getD 0
  let signedValue := if dir == "Asc" then numericValue else -numericValue
  (if isMissing && dir == "Asc" then 1 else 0, signedValue, t)

/-- The ordering `sorted(ticker_list, key=sort_key)` sorts by: compare the
key tuples. -/
def keyRel (m : List (String × Option ℚ)) (dir : String) (a b : String) : Prop :=
  keyLE (sort_key m dir a) (sort_key m dir b) = true

instance (m : List (String × Option ℚ)) (dir : String) :
    DecidableRel (keyRel m dir) := fun a b =>
  inferInstanceAs (Decidable (keyLE (sort_key m dir a) (sort_key m dir b) = true))

/-- The primary sorted list of the BasicFinancials branch:
`sorted(ticker_list, key=sort_key)` (the candidate set listed in any order;
the key order is total on distinct tickers, so we sort its canonical
listing). -/
def bfPrimarySorted (db : DB) (S : Finset String) (metricKey dir : String) : List String :=
  (alphaList S).insertionSort (keyRel (bfMetricMap db S metricKey) dir)

/-- The primary sorted list of the latest-candle branch. -/
def lcPrimarySorted (db : DB) (S : Finset String) (metricKey dir : String) : List String :=
  (alphaList S).insertionSort (keyRel (lcMetricMap db S metricKey) dir)

/-- Step 6, the ranking stage: with a chosen directive and a nonempty
candidate set, sort by the metric's key in the owning source's branch and
then append the candidates absent from the fetched map, alphabetically;
otherwise list the candidate set alphabetically. -/
def rankStage (db : DB) (S : Finset String) (filters : Filters) : List String :=
  match sortDirectiveScan filters with
  | some (dir, mk) =>
    if S.Nonempty then
      if mk == "close" || mk == "volume" then
        lcPrimarySorted db S mk dir ++ alphaList (S \ mapKeys (lcMetricMap db S mk))
      else
        bfPrimarySorted db S mk dir ++ alphaList (S \ mapKeys (bfMetricMap db S mk))
    else alphaList S
  | none => alphaList S

/-- Embeds the endpoint `get_screener_symbols`: compile and execute the
per-source predicates, apply the search overlay, rank, and return the
symbols with `total = len(symbols)`. -/
def get_screener_symbols (db : DB) (filters : Filters) (search : Option String) :
    List String × ℕ :=
  let S := searchStage db (candidateSet db filters) search
  let symbols := rankStage db S filters
  (symbols, symbols.length)

/-! Concrete databases and filter maps used by witnesses and
counterexamples. -/

/-- A small database: A has peTTM 10, B has a BasicFinancials record with a
null peTTM, C has no BasicFinancials record at all; all three have
profiles. -/
def dbABC : DB :=
  ⟨[⟨"A", [("peTTM", some 10)]⟩, ⟨"B", [("peTTM", none)]⟩],
   [⟨"A", none, none, none, some "Alpha Inc"⟩,
    ⟨"B", none, none, none, some "Beta Inc"⟩,
    ⟨"C", none, none, none, some "Gamma Inc"⟩],
   []⟩

/-- A database in which A and B share the same peTTM value. -/
def dbTie : DB :=
  ⟨[⟨"A", [("peTTM", some 10)]⟩, ⟨"B", [("peTTM", some 10)]⟩],
   [⟨"A", none, none, none, some "Alpha Inc"⟩,
    ⟨"B", none, none, none, some "Beta Inc"⟩],
   []⟩

/-- A database with one ticker present in all three stores. -/
def dbFull : DB :=
  ⟨[⟨"A", [("peTTM", some 10)]⟩],
   [⟨"A", some "Technology", none, none, some "Alpha Inc"⟩],
   [⟨"A", "D", 50, 1000⟩]⟩

end Screener

namespace Screener

/-! Theorems for the frozen claims. -/

/-- C2: with candidates A (peTTM 10), B (record with null peTTM) and C (no
BasicFinancials record at all) and an ascending peTTM sort directive, the
code returns C twice — once inside the primary sort (its absent map entry
reads as a missing value) and once more from the append-missing step — so
the returned list is [A, B, C, C] with total 4, not the [A, B, C] the
specification requires. -/
theorem C2_no_record_ticker_duplicated :
    get_screener_symbols dbABC [("peSortDirection", FilterVal.str "Asc")] none
      = (["A", "B", "C", "C"], 4)
    ∧ List.count "C" (get_screener_symbols dbABC
        [("peSortDirection", FilterVal.str "Asc")] none).1 = 2 := by
  constructor
  · with_unfolding_all decide
  · with_unfolding_all decide

/-- C3 counterexample: `peMax = "20"` with the unrecognized operator string
`"bogus"` compiles to a `$gte` predicate, not the `$lte` that peMax's
default operator would give. -/
theorem C3_counterexample_gte_not_lte :
    build_bf_query [("peMax", FilterVal.str "20"), ("peOperator", FilterVal.str "bogus")]
      = [("peTTM", "$gte", 20)]
    ∧ ("$gte" : String) ≠ "$lte" := by
  constructor
  · with_unfolding_all decide
  · decide

/-- C3 (amended): for every metric call site, a parseable value together
with an explicit operator string outside {lte, lt, gte, gt, eq, ne}
compiles, without error, to a predicate whose operator is the global
`$gte` fallback of `get_mongo_operator` — regardless of the metric's own
default operator. -/
theorem C3_unrecognized_operator_falls_back_to_gte
    (filters : Filters) (q : BfQuery) (c : BfCall) (v : ℚ) (s : String)
    (hv : parse_float (fget filters c.filterKey) = some v)
    (hop : fget filters c.operatorKey = some (.str s))
    (h1 : s ≠ "lte") (h2 : s ≠ "lt") (h3 : s ≠ "gte")
    (h4 : s ≠ "gt") (h5 : s ≠ "eq") (h6 : s ≠ "ne") :
    add_bf_with_operator filters q c
      = q ++ [(c.metricKey, "$gte", if c.isPercent then v / 100 else v)] := by
  unfold add_bf_with_operator
  rw [hv]
  have hop' : fgetD filters c.operatorKey (.str c.defaultOperator) = .str s := by
    unfold fgetD
    rw [hop]
    rfl
  rw [hop']
  unfold get_mongo_operator
  simp [h1, h2, h3, h4, h5, h6]

/-- C3 witness: the amended statement applied at `peMax = "20"`,
`peOperator = "bogus"`. -/
theorem C3_unrecognized_operator_witness :
    add_bf_with_operator [("peMax", FilterVal.str "20"), ("peOperator", FilterVal.str "bogus")]
      [] ⟨"peTTM", "peMax", "peOperator", false, "lte"⟩
      = [] ++ [("peTTM", "$gte", if (⟨"peTTM", "peMax", "peOperator", false, "lte"⟩ : BfCall).isPercent then (20 : ℚ) / 100 else 20)] :=
  C3_unrecognized_operator_falls_back_to_gte _ _ _ 20 "bogus"
    (by with_unfolding_all decide) (by decide)
    (by decide) (by decide) (by decide) (by decide) (by decide) (by decide)

/-- C4: every table entry with a parseable value compiles to a predicate
whose threshold is the parsed value divided by 100 exactly when the entry
is flagged percent; the percent-flagged entries are exactly the
profitability, growth and price-return filter keys while the valuation,
cash-flow and financial-health keys use the raw value; and concretely
`netMarginMin = "15"` compiles to threshold 3/20 = 0.15, which a stored
`netProfitMarginTTM` of 0.15 satisfies (a threshold of 15 would not). -/
theorem C4_percent_scaling :
    (∀ (filters : Filters) (q : BfQuery) (c : BfCall) (v : ℚ),
        parse_float (fget filters c.filterKey) = some v →
        add_bf_with_operator filters q c
          = q ++ [(c.metricKey,
                   get_mongo_operator (fgetD filters c.operatorKey (.str c.defaultOperator)),
                   if c.isPercent then v / 100 else v)])
    ∧ (bfCallTable.filter (·.isPercent)).map (·.filterKey)
        = ["netMarginMin", "operMarginMin", "grossMarginMin", "roeMin", "roaMin", "roiMin",
           "revGrowthYoyMin", "revGrowth3YMin", "revGrowth5YMin", "epsGrowthYoyMin",
           "epsGrowth3YMin", "epsGrowth5YMin", "cashFlowGrowthMin", "ebitdaGrowthMin",
           "ytdReturnMin", "return5DMin", "return1MMin", "return3MMin", "relSp5001YMin"]
    ∧ (bfCallTable.filter (fun c => !c.isPercent)).map (·.filterKey)
        = ["peMax", "forwardPeMax", "pegMax", "pbMax", "psMax", "evEbitdaMax",
           "fcfPerShareMin", "evFcfMax", "deRatioMax", "interestCoverageMin",
           "currentRatioMin", "quickRatioMin"]
    ∧ build_bf_query [("netMarginMin", FilterVal.str "15")]
        = [("netProfitMarginTTM", "$gte", 3 / 20)]
    ∧ fieldMatch (some (some (3 / 20))) "$gte" (3 / 20) = true
    ∧ fieldMatch (some (some (3 / 20))) "$gte" 15 = false := by
  refine ⟨fun filters q c v hv => ?_, by decide, by decide,
    by with_unfolding_all decide, by with_unfolding_all decide,
    by with_unfolding_all decide⟩
  unfold add_bf_with_operator
  rw [hv]

/-- C4 witness: the general part applied at `netMarginMin = "15"` on the
netProfitMarginTTM table entry. -/
theorem C4_percent_scaling_witness :
    add_bf_with_operator [("netMarginMin", FilterVal.str "15")] []
      ⟨"netProfitMarginTTM", "netMarginMin", "netMarginOperator", true, "gte"⟩
      = [] ++ [("netProfitMarginTTM",
          get_mongo_operator (fgetD [("netMarginMin", FilterVal.str "15")] "netMarginOperator" (.str "gte")),
          if (⟨"netProfitMarginTTM", "netMarginMin", "netMarginOperator", true, "gte"⟩ : BfCall).isPercent then (15 : ℚ) / 100 else 15)] :=
  C4_percent_scaling.1 _ _ _ 15 (by with_unfolding_all decide)

/-- C5: the directive scan is first-match-wins over the fixed ordered
table: with both `peSortDirection = "Asc"` and `roeSortDirection =
"Desc"`, the scan selects (Asc, peTTM) and the ROE directive has no effect
on the output for any database; and whenever no directive key holds
exactly "Asc" or "Desc", the output is the candidate set after search in
alphabetical ascending ticker order. -/
theorem C5_first_match_wins :
    (∀ db : DB,
        get_screener_symbols db
          [("peSortDirection", FilterVal.str "Asc"), ("roeSortDirection", FilterVal.str "Desc")] none
          = get_screener_symbols db [("peSortDirection", FilterVal.str "Asc")] none)
    ∧ sortDirectiveScan
        [("peSortDirection", FilterVal.str "Asc"), ("roeSortDirection", FilterVal.str "Desc")]
        = some ("Asc", "peTTM")
    ∧ (∀ (db : DB) (filters : Filters) (search : Option String),
        sortDirectiveScan filters = none →
        (get_screener_symbols db filters search).1
          = alphaList (searchStage db (candidateSet db filters) search)) := by
  refine ⟨fun db => rfl, by decide, fun db filters search h => ?_⟩
  unfold get_screener_symbols rankStage
  rw [h]

/-- C5 witness: the alphabetical-fallback part applied at the empty filter
map, which has no directive. -/
theorem C5_first_match_wins_witness :
    (get_screener_symbols dbABC [] none).1
      = alphaList (searchStage dbABC (candidateSet dbABC []) none) :=
  C5_first_match_wins.2.2 dbABC [] none (by decide)

/-- C8: whenever no BasicFinancials predicate, no latest-candle predicate
and no sector/industry predicate is active, the candidate set entering the
search and ranking stages is the full set of profile tickers; in
particular the empty filter map with no search returns every known ticker
alphabetically, not an empty list. -/
theorem C8_unfiltered_default :
    (∀ (db : DB) (filters : Filters),
        build_bf_query filters = [] →
        lcActive filters = false →
        hasSectorFilter filters = false →
        hasIndustryFilter filters = false →
        candidateSet db filters = cpAllTickers db)
    ∧ (∀ db : DB,
        get_screener_symbols db [] none
          = (alphaList (cpAllTickers db), (alphaList (cpAllTickers db)).length)) := by
  constructor
  · intro db filters hbf hlc hs hi
    unfold candidateSet tsAfterCp tsAfterLc tsAfterBf
    rw [hbf, hlc, hs, hi]
    simp
  · intro db
    rfl

/-- C8 witness: the general part applied at filters whose values are all
inactive (an unparseable `peMax` and `sector = "Any"`), on a concrete
database. -/
theorem C8_unfiltered_default_witness :
    candidateSet dbABC [("peMax", FilterVal.str "n/a"), ("sector", FilterVal.str "Any")]
      = cpAllTickers dbABC :=
  C8_unfiltered_default.1 dbABC _ (by with_unfolding_all decide) (by decide)
    (by decide) (by decide)

theorem pyFloatCore_isSome (l : List Char) :
    (pyFloatCore l).isSome
      = (l.all (fun x => x.isDigit || x == '.')
          && decide (l.countP (fun x => x == '.') ≤ 1) && l.any Char.isDigit) := by
  unfold pyFloatCore
  split
  · next h => simp [h]
  · next h => simp_all

theorem pyFloat_isSome (l : List Char) :
    (pyFloat l).isSome = isPyFloatToken l := by
  cases l with
  | nil => rfl
  | cons c rest =>
    have hbody : ∀ body : List Char,
        (body.all (fun x => x.isDigit || x == '.')
            && decide (body.countP (fun x => x == '.') ≤ 1) && body.any Char.isDigit)
          = (!body.isEmpty && body.all (fun x => x.isDigit || x == '.')
              && decide (body.countP (fun x => x == '.') ≤ 1) && body.any Char.isDigit) := by
      intro body
      cases body with
      | nil => rfl
      | cons x xs => rfl
    show (if c = '+' then pyFloatCore rest
          else if c = '-' then (pyFloatCore rest).map (fun q => -q)
          else pyFloatCore (c :: rest)).isSome
        = (!(if c == '+' || c == '-' then rest else c :: rest).isEmpty
            && (if c == '+' || c == '-' then rest else c :: rest).all
                (fun x => x.isDigit || x == '.')
            && decide ((if c == '+' || c == '-' then rest else c :: rest).countP
                (fun x => x == '.') ≤ 1)
            && (if c == '+' || c == '-' then rest else c :: rest).any Char.isDigit)
    by_cases hp : c = '+'
    · subst hp
      rw [if_pos rfl]
      simp only [pyFloatCore_isSome]
      rw [hbody rest]
      simp
    · rw [if_neg hp]
      by_cases hm : c = '-'
      · subst hm
        rw [if_pos rfl]
        have hmap : ((pyFloatCore rest).map (fun q => -q)).isSome
            = (pyFloatCore rest).isSome := by
          cases pyFloatCore rest <;> rfl
        rw [hmap]
        simp only [pyFloatCore_isSome]
        rw [hbody rest]
        simp
      · rw [if_neg hm]
        have hcp : (c == '+') = false := by
          simpa using hp
        have hcm : (c == '-') = false := by
          simpa using hm
        simp only [pyFloatCore_isSome, hcp, hcm, Bool.or_self, Bool.false_or,
          Bool.false_eq_true, if_false]
        rw [hbody (c :: rest)]

/-- C10: on a string value, `_parse_float` is a total function returning a
value exactly when the string, stripped and cleaned to the characters
`[0-9.+-]`, forms a float token (optional sign, digits, at most one dot,
at least one digit); empty, whitespace-only and malformed remainders such
as "1.2.3" yield None; a UI-decorated value like " 15% " parses to 15; and
a None parse contributes no predicate at any metric call site. -/
theorem C10_parse_float_total :
    (∀ s : String,
        (parse_float (some (.str s))).isSome
          = isPyFloatToken ((strTrim s).data.filter isNumChar))
    ∧ parse_float (some (.str "1.2.3")) = none
    ∧ parse_float (some (.str "")) = none
    ∧ parse_float (some (.str "   ")) = none
    ∧ parse_float (some (.str " 15% ")) = some 15
    ∧ (∀ (filters : Filters) (q : BfQuery) (c : BfCall),
        parse_float (fget filters c.filterKey) = none →
        add_bf_with_operator filters q c = q) := by
  refine ⟨fun s => ?_, by decide, by decide, by decide,
    by with_unfolding_all decide, fun filters q c h => ?_⟩
  · show (let t := strTrim s;
        if t == "" then none
        else
          let cleaned := t.data.filter isNumChar
          if cleaned.isEmpty then none else pyFloat cleaned).isSome = _
    by_cases h1 : strTrim s = ""
    · rw [h1]
      decide
    · rw [if_neg (by simpa using h1)]
      by_cases h2 : ((strTrim s).data.filter isNumChar).isEmpty
      · have h2' : (strTrim s).data.filter isNumChar = [] := by
          simpa using h2
        simp only [h2']
        decide
      · simp only [h2, Bool.false_eq_true, if_false]
        exact pyFloat_isSome _
  · unfold add_bf_with_operator
    rw [h]

/-- C10 witness: the no-predicate part applied at an unparseable string
value on the peTTM call site. -/
theorem C10_parse_float_total_witness :
    add_bf_with_operator [("peMax", FilterVal.str "abc")] []
      ⟨"peTTM", "peMax", "peOperator", false, "lte"⟩ = [] :=
  C10_parse_float_total.2.2.2.2.2 _ _ _ (by decide)

/-- C9: for a search term with no surrounding whitespace, the post-search
candidate set is the union of the candidates whose symbol contains the
term case-insensitively and the candidates having a profile whose company
name contains it case-insensitively — so a ticker matching on name alone
is kept; an empty or whitespace-only term, or no term, leaves the
candidate set unchanged. -/
theorem C9_search_overlay_union :
    (∀ (db : DB) (S : Finset String) (q t : String),
        strTrim q = q → q ≠ "" →
        (t ∈ searchStage db S (some q)
          ↔ t ∈ S ∧ (strContains (strUpper t) (strUpper q) = true
              ∨ ∃ d ∈ db.cp, d.ticker = t
                  ∧ strContains (strUpper (d.name.getD "")) (strUpper q) = true)))
    ∧ (∀ (db : DB) (S : Finset String) (q : String),
        strTrim q = "" → searchStage db S (some q) = S)
    ∧ (∀ (db : DB) (S : Finset String), searchStage db S none = S) := by
  refine ⟨fun db S q t htrim hq => ?_, fun db S q h => ?_, fun db S => rfl⟩
  · show (t ∈ if q != "" && strTrim q != "" then _ else S) ↔ _
    rw [htrim]
    rw [if_pos (by simp [hq])]
    by_cases hS : S.Nonempty
    · rw [if_pos hS]
      simp only [Finset.mem_union, Finset.mem_filter, List.mem_toFinset, List.mem_map,
        List.mem_filter, Bool.and_eq_true, decide_eq_true_eq]
      constructor
      · rintro (⟨htS, hc⟩ | ⟨d, ⟨hd, hdS, hname⟩, hdt⟩)
        · exact ⟨htS, Or.inl hc⟩
        · exact ⟨hdt ▸ hdS, Or.inr ⟨d, hd, hdt, hname⟩⟩
      · rintro ⟨htS, hc | ⟨d, hd, hdt, hname⟩⟩
        · exact Or.inl ⟨htS, hc⟩
        · exact Or.inr ⟨d, ⟨hd, hdt ▸ htS, hname⟩, hdt⟩
    · rw [if_neg hS]
      have hSempty : S = ∅ := Finset.not_nonempty_iff_eq_empty.mp hS
      subst hSempty
      simp
  · show (if q != "" && strTrim q != "" then _ else S) = S
    rw [h]
    simp

/-- C9 witness: the union part applied where the candidate "B" of
`dbABC` matches the term "beta" on company name alone (its symbol does
not contain it). -/
theorem alphaLe_antisymm {a b : String} (h1 : alphaLe a b) (h2 : alphaLe b a) :
    a = b := by
  cases a
  cases b
  exact congrArg String.mk (charListLe_antisymm h1 h2)

theorem keyLE_refl (a : SortKey) : keyLE a a = true := by
  simp [keyLE, strLe, charListLe_refl]

theorem keyLE_trans {a b c : SortKey} (h1 : keyLE a b = true) (h2 : keyLE b c = true) :
    keyLE a c = true := by
  simp only [keyLE, Bool.or_eq_true, Bool.and_eq_true, decide_eq_true_eq] at h1 h2 ⊢
  rcases h1 with h1 | ⟨e1, h1⟩
  · rcases h2 with h2 | ⟨e2, h2⟩
    · exact Or.inl (lt_trans h1 h2)
    · exact Or.inl (e2 ▸ h1)
  · rcases h2 with h2 | ⟨e2, h2⟩
    · exact Or.inl (e1 ▸ h2)
    · refine Or.inr ⟨e1.trans e2, ?_⟩
      rcases h1 with h1 | ⟨f1, h1⟩
      · rcases h2 with h2 | ⟨f2, h2⟩
        · exact Or.inl (lt_trans h1 h2)
        · exact Or.inl (f2 ▸ h1)
      · rcases h2 with h2 | ⟨f2, h2⟩
        · exact Or.inl (f1 ▸ h2)
        · exact Or.inr ⟨f1.trans f2, charListLe_trans h1 h2⟩

theorem keyLE_total (a b : SortKey) : keyLE a b = true ∨ keyLE b a = true := by
  simp only [keyLE, Bool.or_eq_true, Bool.and_eq_true, decide_eq_true_eq]
  rcases lt_trichotomy a.1 b.1 with h | h | h
  · exact Or.inl (Or.inl h)
  · rcases lt_trichotomy a.2.1 b.2.1 with h' | h' | h'
    · exact Or.inl (Or.inr ⟨h, Or.inl h'⟩)
    · rcases charListLe_total a.2.2.data b.2.2.data with hs | hs
      · exact Or.inl (Or.inr ⟨h, Or.inr ⟨h', hs⟩⟩)
      · exact Or.inr (Or.inr ⟨h.symm, Or.inr ⟨h'.symm, hs⟩⟩)
    · exact Or.inr (Or.inr ⟨h.symm, Or.inl h'⟩)
  · exact Or.inr (Or.inl h)

instance (m : List (String × Option ℚ)) (dir : String) :
    IsTrans String (keyRel m dir) :=
  ⟨fun _ _ _ h1 h2 => keyLE_trans h1 h2⟩

instance (m : List (String × Option ℚ)) (dir : String) :
    IsTotal String (keyRel m dir) :=
  ⟨fun _ _ => keyLE_total _ _⟩

theorem sorted_indexOf_lt {α : Type} [DecidableEq α] {r : α → α → Prop}
    (hrefl : ∀ x, r x x) :
    ∀ (L : List α), L.Pairwise r → ∀ {a b : α}, a ∈ L → b ∈ L →
      ¬ r a b → L.indexOf b < L.indexOf a := by
  intro L
  induction L with
  | nil =>
    intro _ a b ha _ _
    exact absurd ha (List.not_mem_nil _)
  | cons c rest ih =>
    intro hp a b ha hb hab
    rcases List.pairwise_cons.mp hp with ⟨hc, hrest⟩
    have hane : a ≠ c := by
      rintro rfl
      rcases List.mem_cons.mp hb with rfl | hbr
      · exact hab (hrefl _)
      · exact hab (hc b hbr)
    have har : a ∈ rest := (List.mem_cons.mp ha).resolve_left hane
    by_cases hbc : b = c
    · subst hbc
      rw [List.indexOf_cons_self, List.indexOf_cons_ne _ (Ne.symm hane)]
      exact Nat.succ_pos _
    · have hbr : b ∈ rest := (List.mem_cons.mp hb).resolve_left hbc
      rw [List.indexOf_cons_ne _ (Ne.symm hane), List.indexOf_cons_ne _ (Ne.symm hbc)]
      exact Nat.succ_lt_succ (ih hrest har hbr hab)

theorem C9_search_overlay_union_witness :
    "B" ∈ searchStage dbABC {"B"} (some "beta")
      ↔ "B" ∈ ({"B"} : Finset String)
          ∧ (strContains (strUpper "B") (strUpper "beta") = true
              ∨ ∃ d ∈ dbABC.cp, d.ticker = "B"
                  ∧ strContains (strUpper (d.name.getD "")) (strUpper "beta") = true) :=
  C9_search_overlay_union.1 dbABC {"B"} "beta" "B" (by decide) (by decide)

/-- C6: a candidate ticker with a BasicFinancials record whose sort-metric
value is null gets numeric value 0 in its sort key; under Ascending its
missing flag is 1, which places it after every candidate carrying a
non-null value in the primary sorted list, while under Descending the
flag stays 0 with value 0, the same (flag, value) pair as any candidate
whose real value is literally 0 — so it interleaves with those. -/
theorem C6_missing_value_asymmetry
    (db : DB) (S : Finset String) (mk t : String)
    (htS : t ∈ S)
    (hrec : t ∈ mapKeys (bfMetricMap db S mk))
    (hnull : mapGet (bfMetricMap db S mk) t = none) :
    sort_key (bfMetricMap db S mk) "Asc" t = (1, 0, t)
    ∧ sort_key (bfMetricMap db S mk) "Desc" t = (0, 0, t)
    ∧ (∀ t' v, t' ∈ S → mapGet (bfMetricMap db S mk) t' = some v →
        (bfPrimarySorted db S mk "Asc").indexOf t'
          < (bfPrimarySorted db S mk "Asc").indexOf t)
    ∧ (∀ t'', mapGet (bfMetricMap db S mk) t'' = some 0 →
        sort_key (bfMetricMap db S mk) "Desc" t'' = (0, 0, t'')) := by
  refine ⟨by simp [sort_key, hnull], by simp [sort_key, hnull],
    fun t' v ht' hv => ?_, fun t'' h => by simp [sort_key, h]⟩
  have hkt : sort_key (bfMetricMap db S mk) "Asc" t = (1, 0, t) := by
    simp [sort_key, hnull]
  have hkt' : sort_key (bfMetricMap db S mk) "Asc" t' = (0, v, t') := by
    simp [sort_key, hv]
  have hs : (bfPrimarySorted db S mk "Asc").Pairwise (keyRel (bfMetricMap db S mk) "Asc") :=
    List.sorted_insertionSort _ _
  have htL : t ∈ bfPrimarySorted db S mk "Asc" := by
    unfold bfPrimarySorted
    rw [List.mem_insertionSort]
    exact mem_alphaList.mpr htS
  have ht'L : t' ∈ bfPrimarySorted db S mk "Asc" := by
    unfold bfPrimarySorted
    rw [List.mem_insertionSort]
    exact mem_alphaList.mpr ht'
  have hnr : ¬ keyRel (bfMetricMap db S mk) "Asc" t t' := by
    unfold keyRel
    rw [hkt, hkt']
    simp [keyLE]
  exact sorted_indexOf_lt
    (fun x => keyLE_refl (sort_key (bfMetricMap db S mk) "Asc" x)) _ hs htL ht'L hnr

/-- C6 witness: in `dbABC`, restricted to candidates A and B, ticker B has
a record with a null peTTM and its ascending sort key carries the missing
flag. -/
theorem C6_missing_value_asymmetry_witness :
    sort_key (bfMetricMap dbABC {"A", "B"} "peTTM") "Asc" "B" = (1, 0, "B") :=
  (C6_missing_value_asymmetry dbABC {"A", "B"} "peTTM" "B" (by decide)
    (by with_unfolding_all decide) (by with_unfolding_all decide)).1

/-- C7: the primary sort key is (missingFlag, signedValue, ticker) with
the value itself under Ascending and its negation under Descending, so
two candidates with equal non-null values order by ascending ticker under
both directions. -/
theorem C7_tie_break_by_ticker
    (db : DB) (S : Finset String) (mk dir t t' : String) (v : ℚ)
    (hdir : dir = "Asc" ∨ dir = "Desc")
    (htS : t ∈ S) (ht'S : t' ∈ S)
    (hv : mapGet (bfMetricMap db S mk) t = some v)
    (hv' : mapGet (bfMetricMap db S mk) t' = some v)
    (hle : alphaLe t t') (hne : t ≠ t') :
    sort_key (bfMetricMap db S mk) "Asc" t = (0, v, t)
    ∧ sort_key (bfMetricMap db S mk) "Desc" t = (0, -v, t)
    ∧ (bfPrimarySorted db S mk dir).indexOf t
        < (bfPrimarySorted db S mk dir).indexOf t' := by
  refine ⟨by simp [sort_key, hv], by simp [sort_key, hv], ?_⟩
  have hkt : sort_key (bfMetricMap db S mk) dir t
      = (0, if dir == "Asc" then v else -v, t) := by
    simp [sort_key, hv]
  have hkt' : sort_key (bfMetricMap db S mk) dir t'
      = (0, if dir == "Asc" then v else -v, t') := by
    simp [sort_key, hv']
  have hst : strLe t' t = false := by
    cases hcase : strLe t' t
    · rfl
    · exact absurd (alphaLe_antisymm hcase hle).symm hne
  have hnr : ¬ keyRel (bfMetricMap db S mk) dir t' t := by
    unfold keyRel
    rw [hkt, hkt']
    simp [keyLE, hst]
  have hs : (bfPrimarySorted db S mk dir).Pairwise (keyRel (bfMetricMap db S mk) dir) :=
    List.sorted_insertionSort _ _
  have htL : t ∈ bfPrimarySorted db S mk dir := by
    unfold bfPrimarySorted
    rw [List.mem_insertionSort]
    exact mem_alphaList.mpr htS
  have ht'L : t' ∈ bfPrimarySorted db S mk dir := by
    unfold bfPrimarySorted
    rw [List.mem_insertionSort]
    exact mem_alphaList.mpr ht'S
  exact sorted_indexOf_lt
    (fun x => keyLE_refl (sort_key (bfMetricMap db S mk) dir x)) _ hs ht'L htL hnr

/-- C7 witness: in `dbTie`, A and B share peTTM 10, and A precedes B in
the primary sorted list under Descending order. -/
theorem C7_tie_break_by_ticker_witness :
    (bfPrimarySorted dbTie {"A", "B"} "peTTM" "Desc").indexOf "A"
      < (bfPrimarySorted dbTie {"A", "B"} "peTTM" "Desc").indexOf "B" :=
  (C7_tie_break_by_ticker dbTie {"A", "B"} "peTTM" "Desc" "A" "B" 10 (Or.inr rfl)
    (by decide) (by decide) (by with_unfolding_all decide)
    (by with_unfolding_all decide) (by decide) (by decide)).2.2

theorem searchStage_subset {db : DB} {S : Finset String} {search : Option String}
    {t : String} (ht : t ∈ searchStage db S search) : t ∈ S := by
  cases search with
  | none => exact ht
  | some q =>
    simp only [searchStage] at ht
    by_cases hcond : (q != "" && strTrim q != "") = true
    · rw [if_pos hcond] at ht
      by_cases hS : S.Nonempty
      · rw [if_pos hS] at ht
        rcases Finset.mem_union.mp ht with h | h
        · exact (Finset.mem_filter.mp h).1
        · simp only [List.mem_toFinset, List.mem_map, List.mem_filter,
            Bool.and_eq_true, decide_eq_true_eq] at h
          obtain ⟨d, ⟨_, hdS, _⟩, hdt⟩ := h
          exact hdt ▸ hdS
      · rw [if_neg hS] at ht
        rcases Finset.mem_union.mp ht with h | h
        · exact (Finset.mem_filter.mp h).1
        · exact absurd h (Finset.not_mem_empty t)
    · rw [if_neg hcond] at ht
      exact ht

theorem rankStage_subset {db : DB} {S : Finset String} {filters : Filters}
    {t : String} (ht : t ∈ rankStage db S filters) : t ∈ S := by
  unfold rankStage at ht
  split at ht
  · split at ht
    · split at ht
      · unfold lcPrimarySorted at ht
        rcases List.mem_append.mp ht with h | h
        · exact mem_alphaList.mp ((List.mem_insertionSort _).mp h)
        · exact (Finset.mem_sdiff.mp (mem_alphaList.mp h)).1
      · unfold bfPrimarySorted at ht
        rcases List.mem_append.mp ht with h | h
        · exact mem_alphaList.mp ((List.mem_insertionSort _).mp h)
        · exact (Finset.mem_sdiff.mp (mem_alphaList.mp h)).1
    · exact mem_alphaList.mp ht
  · exact mem_alphaList.mp ht

theorem tsAfterBf_eq_some {db : DB} {filters : Filters}
    (h : build_bf_query filters ≠ []) :
    tsAfterBf db filters = some (bfFind db (build_bf_query filters)) := by
  unfold tsAfterBf
  rw [if_neg (by simpa using h)]

theorem tsAfterLc_sub {db : DB} {filters : Filters} {s : Finset String}
    (h : tsAfterLc db filters = some s) :
    ∀ s0, tsAfterBf db filters = some s0 → s ⊆ s0 := by
  intro s0 h0
  unfold tsAfterLc at h
  split at h
  · rw [h0] at h
    cases h
    exact Finset.inter_subset_left
  · rw [h0] at h
    cases h
    exact Finset.Subset.refl _

theorem tsAfterLc_isSome_of {db : DB} {filters : Filters} {s0 : Finset String}
    (h0 : tsAfterBf db filters = some s0) :
    ∃ s, tsAfterLc db filters = some s := by
  unfold tsAfterLc
  split
  · rw [h0]
    exact ⟨_, rfl⟩
  · exact ⟨s0, h0⟩

theorem tsAfterLc_isSome_of_active {db : DB} {filters : Filters}
    (hA : lcActive filters = true) :
    ∃ s, tsAfterLc db filters = some s := by
  unfold tsAfterLc
  rw [if_pos hA]
  cases tsAfterBf db filters <;> exact ⟨_, rfl⟩

theorem tsAfterLc_sub_lc {db : DB} {filters : Filters} {s : Finset String}
    (hA : lcActive filters = true)
    (h : tsAfterLc db filters = some s) : s ⊆ lcFind db (lcQueryOf filters) := by
  unfold tsAfterLc at h
  rw [if_pos hA] at h
  cases hbf : tsAfterBf db filters with
  | none =>
    rw [hbf] at h
    cases h
    exact Finset.Subset.refl _
  | some s0 =>
    rw [hbf] at h
    cases h
    exact Finset.inter_subset_right

theorem tsAfterCp_sub {db : DB} {filters : Filters} {s : Finset String}
    (h : tsAfterCp db filters = some s) :
    ∀ s1, tsAfterLc db filters = some s1 → s ⊆ s1 := by
  intro s1 h1
  unfold tsAfterCp at h
  split at h
  · rw [h1] at h
    cases h
    exact Finset.inter_subset_left
  · rw [h1] at h
    cases h
    exact Finset.Subset.refl _

theorem tsAfterCp_isSome_of {db : DB} {filters : Filters} {s1 : Finset String}
    (h1 : tsAfterLc db filters = some s1) :
    ∃ s, tsAfterCp db filters = some s := by
  unfold tsAfterCp
  split
  · rw [h1]
    exact ⟨_, rfl⟩
  · exact ⟨s1, h1⟩

theorem tsAfterCp_isSome_of_cond {db : DB} {filters : Filters}
    (hC : (hasSectorFilter filters || hasIndustryFilter filters) = true) :
    ∃ s, tsAfterCp db filters = some s := by
  unfold tsAfterCp
  rw [if_pos hC]
  cases tsAfterLc db filters <;> exact ⟨_, rfl⟩

theorem tsAfterCp_sub_cat {db : DB} {filters : Filters} {s : Finset String}
    (hC : (hasSectorFilter filters || hasIndustryFilter filters) = true)
    (h : tsAfterCp db filters = some s) :
    s ⊆ cpFindCat db
        (if hasSectorFilter filters then sectorVal filters else none)
        (if hasIndustryFilter filters then industryVal filters else none)
        (tsAfterLc db filters) := by
  unfold tsAfterCp at h
  rw [if_pos hC] at h
  cases hlc : tsAfterLc db filters with
  | none =>
    rw [hlc] at h
    cases h
    exact Finset.Subset.refl _
  | some s1 =>
    rw [hlc] at h
    cases h
    exact Finset.inter_subset_right

theorem candidateSet_eq {db : DB} {filters : Filters} {s : Finset String}
    (h : tsAfterCp db filters = some s) : candidateSet db filters = s := by
  unfold candidateSet
  rw [h]
  rfl

theorem bfFind_single {db : DB} {q : BfQuery} {c : String × String × ℚ} {t : String}
    (hc : c ∈ q) (ht : t ∈ bfFind db q) : t ∈ bfFind db [c] := by
  simp only [bfFind, List.mem_toFinset, List.mem_map, List.mem_filter] at ht ⊢
  obtain ⟨d, ⟨hd, hm⟩, hdt⟩ := ht
  refine ⟨d, ⟨hd, ?_⟩, hdt⟩
  simp only [bfDocMatches, List.all_eq_true] at hm ⊢
  intro x hx
  rw [List.mem_singleton] at hx
  subst hx
  exact hm _ hc

theorem lcFind_close_mono {db : DB} {q : LcQuery} {cc : String × ℚ}
    (hq : q.closeCond = some cc) {t : String} (ht : t ∈ lcFind db q) :
    t ∈ lcFind db ⟨some cc, none⟩ := by
  obtain ⟨qc, qv⟩ := q
  cases hq
  simp only [lcFind, List.mem_toFinset, List.mem_map, List.mem_filter] at ht ⊢
  obtain ⟨d, ⟨hd, hm⟩, hdt⟩ := ht
  refine ⟨d, ⟨hd, ?_⟩, hdt⟩
  simp only [lcDocMatches, Bool.and_eq_true] at hm
  simp [lcDocMatches, hm.1.1, hm.1.2]

theorem lcFind_volume_mono {db : DB} {q : LcQuery} {vc : String × ℚ}
    (hq : q.volumeCond = some vc) {t : String} (ht : t ∈ lcFind db q) :
    t ∈ lcFind db ⟨none, some vc⟩ := by
  obtain ⟨qc, qv⟩ := q
  cases hq
  simp only [lcFind, List.mem_toFinset, List.mem_map, List.mem_filter] at ht ⊢
  obtain ⟨d, ⟨hd, hm⟩, hdt⟩ := ht
  refine ⟨d, ⟨hd, ?_⟩, hdt⟩
  simp only [lcDocMatches, Bool.and_eq_true] at hm
  simp [lcDocMatches, hm.1.1, hm.2]

theorem cpFindCat_mono_sec {db : DB} {sec ind : Option FilterVal}
    {r : Option (Finset String)} {t : String}
    (ht : t ∈ cpFindCat db sec ind r) : t ∈ cpFindCat db sec none none := by
  simp only [cpFindCat, List.mem_toFinset, List.mem_map, List.mem_filter] at ht ⊢
  obtain ⟨d, ⟨hd, hm⟩, hdt⟩ := ht
  refine ⟨d, ⟨hd, ?_⟩, hdt⟩
  simp only [cpDocMatchesCat, Bool.and_eq_true] at hm
  simp [cpDocMatchesCat, hm.1.1]

theorem cpFindCat_mono_ind {db : DB} {sec ind : Option FilterVal}
    {r : Option (Finset String)} {t : String}
    (ht : t ∈ cpFindCat db sec ind r) : t ∈ cpFindCat db none ind none := by
  simp only [cpFindCat, List.mem_toFinset, List.mem_map, List.mem_filter] at ht ⊢
  obtain ⟨d, ⟨hd, hm⟩, hdt⟩ := ht
  refine ⟨d, ⟨hd, ?_⟩, hdt⟩
  simp only [cpDocMatchesCat, Bool.and_eq_true] at hm
  simp [cpDocMatchesCat, hm.1.2]

theorem lcActive_of_close {filters : Filters} {cc : String × ℚ}
    (h : (lcQueryOf filters).closeCond = some cc) : lcActive filters = true := by
  unfold lcQueryOf at h
  unfold lcActive
  cases hp : parse_float (fget filters "latestCloseMin") with
  | none => simp [hp] at h
  | some v => simp [hp]

theorem lcActive_of_volume {filters : Filters} {vc : String × ℚ}
    (h : (lcQueryOf filters).volumeCond = some vc) : lcActive filters = true := by
  unfold lcQueryOf at h
  unfold lcActive
  cases hp : parse_float (fget filters "latestVolumeMin") with
  | none => simp [hp] at h
  | some v => simp [hp]

/-- C1 (soundness): every ticker of the returned symbols list lies in the
intersected candidate set — the search overlay and ranking stages never
introduce any other ticker — and in particular satisfies every compiled
BasicFinancials metric predicate, every compiled latest-candle
close/volume predicate, and the sector and industry category predicates
whenever those are active. -/
theorem C1_soundness (db : DB) (filters : Filters) (search : Option String) (t : String)
    (ht : t ∈ (get_screener_symbols db filters search).1) :
    t ∈ candidateSet db filters
    ∧ (∀ c ∈ build_bf_query filters, t ∈ bfFind db [c])
    ∧ (∀ cc, (lcQueryOf filters).closeCond = some cc → t ∈ lcFind db ⟨some cc, none⟩)
    ∧ (∀ vc, (lcQueryOf filters).volumeCond = some vc → t ∈ lcFind db ⟨none, some vc⟩)
    ∧ (hasSectorFilter filters = true → t ∈ cpFindCat db (sectorVal filters) none none)
    ∧ (hasIndustryFilter filters = true →
        t ∈ cpFindCat db none (industryVal filters) none) := by
  have ht' : t ∈ rankStage db (searchStage db (candidateSet db filters) search) filters := ht
  have htS : t ∈ candidateSet db filters := searchStage_subset (rankStage_subset ht')
  refine ⟨htS, ?_, ?_, ?_, ?_, ?_⟩
  · intro c hc
    have hne : build_bf_query filters ≠ [] := by
      intro h0
      rw [h0] at hc
      exact absurd hc (List.not_mem_nil c)
    obtain ⟨s1, h1⟩ := tsAfterLc_isSome_of (tsAfterBf_eq_some hne)
    obtain ⟨s2, h2⟩ := tsAfterCp_isSome_of h1
    have hsub : candidateSet db filters ⊆ bfFind db (build_bf_query filters) := by
      rw [candidateSet_eq h2]
      exact (tsAfterCp_sub h2 s1 h1).trans (tsAfterLc_sub h1 _ (tsAfterBf_eq_some hne))
    exact bfFind_single hc (hsub htS)
  · intro cc hcc
    obtain ⟨s1, h1⟩ := @tsAfterLc_isSome_of_active db filters (lcActive_of_close hcc)
    obtain ⟨s2, h2⟩ := tsAfterCp_isSome_of h1
    have hsub : candidateSet db filters ⊆ lcFind db (lcQueryOf filters) := by
      rw [candidateSet_eq h2]
      exact (tsAfterCp_sub h2 s1 h1).trans (tsAfterLc_sub_lc (lcActive_of_close hcc) h1)
    exact lcFind_close_mono hcc (hsub htS)
  · intro vc hvc
    obtain ⟨s1, h1⟩ := @tsAfterLc_isSome_of_active db filters (lcActive_of_volume hvc)
    obtain ⟨s2, h2⟩ := tsAfterCp_isSome_of h1
    have hsub : candidateSet db filters ⊆ lcFind db (lcQueryOf filters) := by
      rw [candidateSet_eq h2]
      exact (tsAfterCp_sub h2 s1 h1).trans (tsAfterLc_sub_lc (lcActive_of_volume hvc) h1)
    exact lcFind_volume_mono hvc (hsub htS)
  · intro hSec
    have hC : (hasSectorFilter filters || hasIndustryFilter filters) = true := by
      rw [hSec]
      rfl
    obtain ⟨s2, h2⟩ := @tsAfterCp_isSome_of_cond db filters hC
    have htS2 : t ∈ s2 := by
      rw [candidateSet_eq h2] at htS
      exact htS
    have ht2 := tsAfterCp_sub_cat hC h2 htS2
    rw [if_pos hSec] at ht2
    exact cpFindCat_mono_sec ht2
  · intro hInd
    have hC : (hasSectorFilter filters || hasIndustryFilter filters) = true := by
      rw [hInd, Bool.or_true]
    obtain ⟨s2, h2⟩ := @tsAfterCp_isSome_of_cond db filters hC
    have htS2 : t ∈ s2 := by
      rw [candidateSet_eq h2] at htS
      exact htS
    have ht2 := tsAfterCp_sub_cat hC h2 htS2
    rw [if_pos hInd] at ht2
    exact cpFindCat_mono_ind ht2

/-- C1 witness: with a peTTM predicate, a latest-close predicate and a
sector predicate all active on `dbFull`, the returned ticker A lies in the
candidate set. -/
theorem C1_soundness_witness :
    "A" ∈ candidateSet dbFull
      [("peMax", FilterVal.str "20"), ("latestCloseMin", FilterVal.str "100"),
       ("sector", FilterVal.str "Technology")] :=
  (C1_soundness dbFull
    [("peMax", FilterVal.str "20"), ("latestCloseMin", FilterVal.str "100"),
     ("sector", FilterVal.str "Technology")] none "A"
    (by with_unfolding_all decide)).1

end Screener
